import Mathlib

/-!
# Verification of the kolmafia-stubs XPath evaluator (`src/lib/xpather.ts`)

This file is a shallow embedding of the TypeScript port of HtmlCleaner's
XPath engine (`XPather`), together with proofs about it.

Modelling conventions:

* JavaScript DOM elements are identified by their *path* from the root
  element (the list of `childNodes` indices).  Two structurally equal but
  distinct DOM nodes have distinct paths, so path equality models the
  reference identity that `Set` membership and `Array.prototype.includes`
  use in the source.
* JavaScript numbers are modelled by `JSNum` (either `NaN` or an exact
  rational); every number the evaluator manufactures (positions, lengths,
  parsed decimal literals) is exact, and `NaN` compares false under every
  relational operator, as in JavaScript.
* Exceptions (`XPatherException`, and the plain `Error` thrown by
  `getParent`) are modelled with `Except`; `EvalError.outOfFuel` is the
  artefact of the fuel-indexed encoding of the recursion, not a behaviour
  of the source.
* The mutually recursive evaluator is encoded as a family `fns fuel` of
  function bundles, built by structural recursion on `fuel`: the bundle at
  `fuel + 1` performs one layer of the source's dispatch and delegates
  every (mutually) recursive call to the bundle at `fuel`.  The iteration
  inside one call (`forEach` loops over a value list) does not consume
  fuel; it is structural recursion on the list.
* `String.prototype.localeCompare` is host-dependent, so the evaluator is
  parameterised by a collator `lc : String → String → Int`; `cpCompare`
  is the locale-insensitive codepoint order and `icuLikeCompare` is a
  conforming host collation under which `localeCompare` disagrees with
  codepoint order.
-/

set_option maxRecDepth 4000

namespace Xpather

/-! ## Character and string helpers

The source manipulates JavaScript strings with `trim`, `toLowerCase`,
`slice`, `startsWith` and `charAt`.  To keep every definition kernel
computable we model them on the character list of the Lean string. -/

/-- Model of the whitespace class used by `String.prototype.trim` (restricted
to the characters that can occur inside a token of this grammar). -/
def isJsSpace (c : Char) : Bool :=
  c = ' ' ∨ c = '\t' ∨ c = '\n' ∨ c = '\r'

/-- Model of `String.prototype.trim` on the character list. -/
def trimChars (l : List Char) : List Char :=
  ((l.dropWhile isJsSpace).reverse.dropWhile isJsSpace).reverse

/-- Model of `String.prototype.trim`. -/
def jsTrim (s : String) : String := ⟨trimChars s.data⟩

/-- Model of `String.prototype.toLowerCase` (the tag names handled by the
evaluator are ASCII, where `Char.toLower` agrees with JavaScript). -/
def jsToLower (s : String) : String := ⟨s.data.map Char.toLower⟩

/-! ## Tokenizer

`XPather`'s constructor splits the expression with
`expression.split(/([/()[\]"'=<>])/).filter(token => token)`: a split that
keeps the nine captured delimiter characters as their own tokens and
discards the empty fragments between adjacent delimiters.  The result is
exactly: each delimiter character as a single-character token, and each
maximal nonempty run of non-delimiter characters as one token. -/

/-- The nine delimiter characters of the token grammar. -/
def delims : List Char := ['/', '(', ')', '[', ']', '"', '\'', '=', '<', '>']

/-- Split a character list into delimiter singletons and maximal nonempty
runs of non-delimiters (the behaviour of the constructor's
`split`/`filter` pipeline). -/
def tokenizeChars : List Char → List (List Char)
  | [] => []
  | c :: rest =>
    let ts := tokenizeChars rest
    if c ∈ delims then [c] :: ts
    else
      match ts with
      | [] => [[c]]
      | t :: ts' =>
        match t with
        | [] => [c] :: ts
        | d :: _ => if d ∈ delims then [c] :: ts else (c :: t) :: ts'

/-- The token array owned by one `XPather` instance. -/
def tokenize (s : String) : List String :=
  (tokenizeChars s.data).map (fun l => ⟨l⟩)

/-! ## The DOM model

A `DomNode` is an element (tag name, ordered attribute list, ordered
children including text nodes) or a text node.  An element *reference* is
a `Path`: the list of `childNodes` indices leading to it from the root. -/

inductive DomNode where
  | elem (name : String) (attrs : List (String × String)) (children : List DomNode)
  | text (content : String)

abbrev Path := List Nat

/-- Look up the node a path denotes. -/
def getNode : DomNode → Path → Option DomNode
  | n, [] => some n
  | .elem _ _ cs, i :: rest =>
    match cs.get? i with
    | some c => getNode c rest
    | none => none
  | .text _, _ :: _ => none

/-- Tag name of the element at a path (empty for invalid paths). -/
def elemName (doc : DomNode) (p : Path) : String :=
  match getNode doc p with
  | some (.elem n _ _) => n
  | _ => ""

/-- Attribute list of the element at a path. -/
def attrsOf (doc : DomNode) (p : Path) : List (String × String) :=
  match getNode doc p with
  | some (.elem _ as _) => as
  | _ => []

/-- Model of `getAttributeByName`: `el.hasAttribute(n) ? el.getAttribute(n) : null`. -/
def getAttributeByName (doc : DomNode) (p : Path) (attName : String) : Option String :=
  (attrsOf doc p).lookup attName

/-- Model of `getChildTagList`: the element children, as paths (indices are
`childNodes` indices, so text children occupy positions). -/
def childTagPaths (doc : DomNode) (p : Path) : List Path :=
  match getNode doc p with
  | some (.elem _ _ cs) =>
    (List.range cs.length).filterMap fun i =>
      match cs.get? i with
      | some (.elem _ _ _) => some (p ++ [i])
      | _ => none
  | _ => []

/-- Model of `getElementListByName(el, findName, false)`: element children whose tag
name matches case-insensitively. -/
def childTagPathsNamed (doc : DomNode) (p : Path) (findName : String) : List Path :=
  match getNode doc p with
  | some (.elem _ _ cs) =>
    (List.range cs.length).filterMap fun i =>
      match cs.get? i with
      | some (.elem n _ _) =>
        if jsToLower n = jsToLower findName then some (p ++ [i]) else none
      | _ => none
  | _ => []

mutual
/-- Relative paths of all element descendants, in the order produced by
`findMatchingTagNodes(el, _, true)`: each element child followed by its own
descendants, then the next child. -/
def descRel : DomNode → List Path
  | .text _ => []
  | .elem _ _ cs => descRelAux cs 0

def descRelAux : List DomNode → Nat → List Path
  | [], _ => []
  | c :: rest, i =>
    (match c with
     | .elem _ _ _ => [i] :: (descRel c).map (fun q => i :: q)
     | .text _ => []) ++ descRelAux rest (i + 1)
end

/-- Model of `getAllElementsList(el, true)`: all element descendants of the element
at `p`, as absolute paths, in document (preorder) order. -/
def descendantTagPaths (doc : DomNode) (p : Path) : List Path :=
  match getNode doc p with
  | some n => (descRel n).map (fun q => p ++ q)
  | none => []

mutual
/-- DOM `textContent`: the concatenation of all descendant text. -/
def textContent : DomNode → String
  | .text s => s
  | .elem _ _ cs => textContentAux cs

def textContentAux : List DomNode → String
  | [] => ""
  | c :: rest => textContent c ++ textContentAux rest
end

/-- Model of `textContent` of the element at a path (empty for invalid paths). -/
def textContentOf (doc : DomNode) (p : Path) : String :=
  match getNode doc p with
  | some n => textContent n
  | none => ""

/-- Model of a JavaScript object literal's `Object.values` over the
attribute map built by `getAttributes`: string keys keep their first
insertion position, later assignments overwrite the value in place. -/
def upsert (l : List (String × String)) (kv : String × String) : List (String × String) :=
  if (l.lookup kv.1).isSome then
    l.map (fun q => if q.1 = kv.1 then (q.1, kv.2) else q)
  else l ++ [kv]

/-- Model of `Object.values(getAttributes(el))`: the attribute values in insertion
order (attribute names are unique per element in a well-formed DOM, in
which case this is just the values in attribute order). -/
def jsObjectValues (attrs : List (String × String)) : List String :=
  (attrs.foldl upsert []).map (·.2)

/-! ## Values

`XPatherResult<T> = boolean | number | string | T`.  A JavaScript number is
`NaN` or (for every number this evaluator constructs) an exact rational. -/

inductive JSNum where
  | nan
  | rat (q : ℚ)
deriving DecidableEq

/-- JavaScript `===` on numbers (`NaN` is not equal to anything; a `Set`'s
SameValueZero treats `NaN` as equal to itself, which `DecidableEq JSNum`
also does). -/
def jsNumEq : JSNum → JSNum → Bool
  | .rat a, .rat b => a = b
  | _, _ => false

/-- JavaScript `<` on numbers. -/
def jsNumLt : JSNum → JSNum → Bool
  | .rat a, .rat b => a < b
  | _, _ => false

/-- JavaScript `<=` on numbers. -/
def jsNumLe : JSNum → JSNum → Bool
  | .rat a, .rat b => a ≤ b
  | _, _ => false

/-- Model of `n === index` where `index` is an integer counter. -/
def jsNumEqInt (n : JSNum) (i : Int) : Bool := jsNumEq n (.rat i)

/-- The evaluator's uniform value type `XPatherResult<T>`.  Elements are
identified by path. -/
inductive Value where
  | elem (p : Path)
  | str (s : String)
  | num (n : JSNum)
  | bool (b : Bool)
deriving DecidableEq

/-- Model of `isElement(value)`: `Boolean(value) && typeof value === 'object'`. -/
def isElemValue : Value → Bool
  | .elem _ => true
  | _ => false

/-- Whether a value is a string (`typeof value === 'string'`). -/
def isStrValue : Value → Bool
  | .str _ => true
  | _ => false

/-! ## Errors and results

`XPatherException` carries an optional message; `getParent` throws a plain
`Error`; `outOfFuel` is only an artefact of the fuel encoding. -/

inductive EvalError where
  | xpather (msg : Option String)
  | jsError (msg : String)
  | outOfFuel
deriving DecidableEq

abbrev Res := Except EvalError (List Value)

/-! ## Ordered sets

`getElementsByName` accumulates into a `Set<XPatherResult<T>>`, which
preserves insertion order and deduplicates by SameValueZero (reference
identity for elements).  `insertVal` appends a value not already present. -/

/-- Model of `Set.prototype.add`. -/
def insertVal (s : List Value) (v : Value) : List Value :=
  if v ∈ s then s else s ++ [v]

/-- Model of `addAll(target, source)`. -/
def insertAllVals (s : List Value) (l : List Value) : List Value :=
  l.foldl insertVal s

/-! ## Token classification helpers -/

/-- Model of `isAtt(token)`: `token.length > 1 && token.startsWith('@')`. -/
def isAtt (token : String) : Bool :=
  match token.data with
  | '@' :: _ :: _ => true
  | _ => false

/-- The shape tested by the regex `/^[a-z][\w-]*$/i`. -/
def identShape (s : String) : Bool :=
  match s.data with
  | [] => false
  | c :: rest =>
    c.isAlpha && rest.all (fun d => d.isAlpha || d.isDigit || d = '_' || d = '-')

/-- Model of `isIdentifier`: note that the source returns `false` even when the
regex matches — a source-level quirk the spec documents; the function is
constantly `false` for every input. -/
def isIdentifier (s : String) : Bool :=
  let t := jsTrim s
  if t.data.length > 0 then
    if ¬ identShape t then false else false
  else false

/-- The tail loop of `isValidDouble`: every character after the first must
be a digit or a decimal point (`if (c !== CD && (c < C0 || c > C9)) return
false`). -/
def doubleTail : List Char → Bool
  | [] => true
  | c :: r => if c ≠ '.' ∧ (c < '0' ∨ '9' < c) then false else doubleTail r

/-- Model of `isValidDouble(value)`: nonempty, first character `+`, `-`, space or a
digit, and every later character a digit or a decimal point.  (No count of
digits or of decimal points is enforced by the source.) -/
def isValidDouble (value : String) : Bool :=
  match value.data with
  | [] => false
  | c :: rest =>
    if c = '+' ∨ c = '-' ∨ c = ' ' ∨ ('0' ≤ c ∧ c ≤ '9') then doubleTail rest
    else false

/-- The tail loop of `isValidInteger`: every later character is a digit. -/
def intTail : List Char → Bool
  | [] => true
  | c :: r => if c < '0' ∨ '9' < c then false else intTail r

/-- Model of `isValidInteger(value)`. -/
def isValidInteger (value : String) : Bool :=
  match value.data with
  | [] => false
  | c :: rest =>
    if c = '+' ∨ c = '-' ∨ ('0' ≤ c ∧ c ≤ '9') then intTail rest
    else false

/-! ## Models of `parseInt` and `parseFloat`

`parseInt`/`parseFloat` skip leading whitespace, accept an optional sign
and parse the longest numeric prefix, yielding `NaN` when no digit was
consumed.  (The source only applies them to tokens accepted by
`isValidInteger`/`isValidDouble`, which contain no exponent part.) -/

def digitsVal (l : List Char) : Nat :=
  l.foldl (fun acc c => acc * 10 + (c.toNat - '0'.toNat)) 0

/-- Model of `parseInt(s)` for sign-and-digit inputs. -/
def parseIntJS (s : String) : JSNum :=
  let l := s.data.dropWhile isJsSpace
  let (sign, l) : Int × List Char :=
    match l with
    | '+' :: r => (1, r)
    | '-' :: r => (-1, r)
    | _ => (1, l)
  let ds := l.takeWhile Char.isDigit
  if ds = [] then .nan else .rat (sign * (digitsVal ds : Int))

/-- Model of `parseFloat(s)` for inputs made of an optional sign/space,
digits and decimal points (parsing stops at a second point). -/
def parseFloatJS (s : String) : JSNum :=
  let l := s.data.dropWhile isJsSpace
  let (sign, l) : ℚ × List Char :=
    match l with
    | '+' :: r => (1, r)
    | '-' :: r => (-1, r)
    | _ => (1, l)
  let intPart := l.takeWhile Char.isDigit
  let rest := l.drop intPart.length
  let fracPart :=
    match rest with
    | '.' :: r => r.takeWhile Char.isDigit
    | _ => []
  if intPart = [] ∧ fracPart = [] then .nan
  else
    .rat (sign * ((digitsVal intPart : ℚ) +
      (digitsVal fracPart : ℚ) / ((10 : ℚ) ^ fracPart.length)))

/-- Model of the `String(number)` conversion for the numbers this evaluator
produces (they are integral whenever they are stringified by the claims
under study). -/
def jsNumToString : JSNum → String
  | .nan => "NaN"
  | .rat q => if q.den = 1 then toString q.num else toString q

/-- Model of `toText(o)`: `isElement(o) ? o.textContent || '' : String(o)`. -/
def toText (doc : DomNode) : Value → String
  | .elem p => textContentOf doc p
  | .str s => s
  | .num n => jsNumToString n
  | .bool b => if b then "true" else "false"

/-! ## `evaluateLogic`

The string branch calls `s1.localeCompare(s2)`, whose ordering is the
host's default collation; the evaluator is therefore parameterised by the
collator `lc`. -/

/-- Lexicographic comparison of character lists by codepoint. -/
def cpCompareChars : List Char → List Char → Int
  | [], [] => 0
  | [], _ :: _ => -1
  | _ :: _, [] => 1
  | a :: as, b :: bs =>
    if a < b then -1 else if b < a then 1 else cpCompareChars as bs

/-- Locale-insensitive codepoint comparison (what the Java reference's
`String.compareTo` uses, and what the spec prescribes). -/
def cpCompare (s t : String) : Int :=
  cpCompareChars s.data t.data

/-- A conforming host collation: ICU-style default collators order letters
case-insensitively first (so `"a"` sorts before `"B"`), unlike codepoint
order.  Used to witness the host-dependence of `localeCompare`. -/
def icuLikeCompare (s t : String) : Int :=
  let c := cpCompare (jsToLower s) (jsToLower t)
  if c = 0 then cpCompare s t else c

/-- Model of `evaluateLogic(first, second, logicOperator)`. -/
def evaluateLogic (doc : DomNode) (lc : String → String → Int)
    (first : Option (List Value)) (second : List Value)
    (logicOperator : String) : Bool :=
  match first with
  | none => false
  | some l1 =>
    match l1, second with
    | [], _ => false
    | _, [] => false
    | elem1 :: _, elem2 :: _ =>
      match elem1, elem2 with
      | .num n1, .num n2 =>
        if logicOperator = "=" then jsNumEq n1 n2
        else if logicOperator = "<" then jsNumLt n1 n2
        else if logicOperator = ">" then jsNumLt n2 n1
        else if logicOperator = "<=" then jsNumLe n1 n2
        else if logicOperator = ">=" then jsNumLe n2 n1
        else false
      | e1, e2 =>
        let s1 := toText doc e1
        let s2 := toText doc e2
        let result := lc s1 s2
        if logicOperator = "=" then result = 0
        else if logicOperator = "<" then result < 0
        else if logicOperator = ">" then 0 < result
        else if logicOperator = "<=" then result ≤ 0
        else if logicOperator = ">=" then 0 ≤ result
        else false

/-! ## Token array access -/

/-- Bounds-checked read of `tokenArray[i]`. -/
def tokAt (A : List String) (i : Int) : Option String :=
  if i < 0 then none else A.get? i.toNat

/-- Raw read of `tokenArray[i]` (the source only reads in-bounds indices;
out-of-bounds reads yield `undefined`, modelled as `""`, and are never
reachable where the result matters). -/
def tokGet (A : List String) (i : Int) : String :=
  (tokAt A i).getD ""

/-- Model of `isToken(token, index)`: in bounds and equal after trimming. -/
def isToken (A : List String) (token : String) (index : Int) : Bool :=
  match tokAt A index with
  | some s => jsTrim s = jsTrim token
  | none => false

/-! ## `findClosingIndex` -/

/-- Scan for the first later occurrence of a quote token (the `"`/`'`
cases of `findClosingIndex`); `steps` counts the remaining indices up to
`to`. -/
def quoteScan (A : List String) (q : String) : Nat → Int → Int
  | 0, _ => -1
  | n + 1, i => if tokGet A i = q then i else quoteScan A q n (i + 1)

/-- One iteration's counter updates followed by the closing test, for the
`(`/`[`/`/` cases of `findClosingIndex`. -/
def bracketScan (A : List String) :
    Nat → Int → Bool → Bool → Int → Int → Int → Int
  | 0, _, _, _, _, _, _ => -1
  | n + 1, i, isQuoteClosed, isAposClosed, brackets, angleBrackets, slashes =>
    let t := tokGet A i
    let isQuoteClosed' := if t = "\"" then !isQuoteClosed else isQuoteClosed
    let isAposClosed' :=
      if t ≠ "\"" ∧ t = "'" then !isAposClosed else isAposClosed
    let brackets' :=
      if t ≠ "\"" ∧ t ≠ "'" ∧ isQuoteClosed ∧ isAposClosed ∧ t = "(" then brackets + 1
      else if t ≠ "\"" ∧ t ≠ "'" ∧ isQuoteClosed ∧ isAposClosed ∧ t = ")" then brackets - 1
      else brackets
    let angleBrackets' :=
      if t ≠ "\"" ∧ t ≠ "'" ∧ isQuoteClosed ∧ isAposClosed ∧ t = "[" then angleBrackets + 1
      else if t ≠ "\"" ∧ t ≠ "'" ∧ isQuoteClosed ∧ isAposClosed ∧ t = "]" then angleBrackets - 1
      else angleBrackets
    let slashes' :=
      if t ≠ "\"" ∧ t ≠ "'" ∧ t ≠ "(" ∧ t ≠ ")" ∧ t ≠ "[" ∧ t ≠ "]" ∧
          isQuoteClosed ∧ isAposClosed ∧ brackets = 0 ∧ angleBrackets = 0 ∧ t = "/"
      then slashes - 1 else slashes
    if isQuoteClosed' ∧ isAposClosed' ∧ brackets' = 0 ∧ angleBrackets' = 0 ∧ slashes' = 0
    then i
    else bracketScan A n (i + 1) isQuoteClosed' isAposClosed' brackets' angleBrackets' slashes'

/-- Model of `findClosingIndex(from, to)`: the matching closing index, or `-1`. -/
def findClosingIndex (A : List String) (fromIdx toIdx : Int) : Int :=
  if fromIdx < toIdx then
    let currToken := tokGet A fromIdx
    if currToken = "\"" then quoteScan A "\"" (toIdx - fromIdx).toNat (fromIdx + 1)
    else if currToken = "'" then quoteScan A "'" (toIdx - fromIdx).toNat (fromIdx + 1)
    else if currToken = "(" ∨ currToken = "[" ∨ currToken = "/" then
      bracketScan A (toIdx - fromIdx).toNat (fromIdx + 1) true true
        (if currToken = "(" then 1 else 0)
        (if currToken = "[" then 1 else 0)
        (if currToken = "/" then 1 else 0)
    else -1
  else -1

/-- Model of `flatten(from, to)`: `tokenArray.slice(from, to + 1).join('')`. -/
def flatten (A : List String) (fromIdx toIdx : Int) : String :=
  if fromIdx ≤ toIdx then
    (((A.drop fromIdx.toNat).take (toIdx - fromIdx + 1).toNat).foldl (· ++ ·) "")
  else ""

/-- Model of `isFunctionCall(from, to)`. -/
def isFunctionCall (A : List String) (fromIdx toIdx : Int) : Bool :=
  if ¬ isIdentifier (tokGet A fromIdx) ∧ ¬ isToken A "(" (fromIdx + 1) then false
  else findClosingIndex A (fromIdx + 1) toIdx > fromIdx + 1

/-! ## The evaluator

The four mutually recursive methods of `XPather` are encoded as a bundle
`Fns`, produced at each fuel level by `stepFns` from the bundle one level
below: every (mutually) recursive call in a method body goes through the
lower bundle, so the family `fns` is plain structural recursion on the
fuel and every definition computes in the kernel.  The `forEach` loops
inside one method body are structural recursion on the iterated list and
consume no fuel. -/

/-- The four methods of one `XPather` instance, at one fuel level. -/
structure Fns where
  evaluateAgainst : Option (List Value) → Int → Int → Bool → Int → Int →
    Bool → Option (List Value) → Res
  evaluateFunction : List Value → Int → Int → Int → Int → Bool → Res
  filterByCondition : List Value → Int → Int → Res
  getElementsByName : List Value → Int → Int → Bool → Bool → Res

/-- The bundle with no fuel left. -/
def zeroFns : Fns where
  evaluateAgainst _ _ _ _ _ _ _ _ := .error .outOfFuel
  evaluateFunction _ _ _ _ _ _ := .error .outOfFuel
  filterByCondition _ _ _ := .error .outOfFuel
  getElementsByName _ _ _ _ _ := .error .outOfFuel

/-- The `text` function's contribution for one source value:
`curr.textContent || ''` for an element, the value itself for a string,
nothing otherwise. -/
def textValue (doc : DomNode) : Value → List Value
  | .elem p => [Value.str (textContentOf doc p)]
  | .str s => [Value.str s]
  | _ => []

/-- The `source.forEach` loop of `evaluateFunction`: `index` is the 1-based
counter, `fullSource` the whole source list (the `count`/`data` argument is
re-evaluated against it once per source value), `acc` the `result` array. -/
def funcLoop (doc : DomNode) (lc : String → String → Int) (A : List String)
    (F : Fns) (name : String) (fullSource : List Value)
    (fromIdx toIdx position last : Int) (isFilterContext : Bool) :
    List Value → Int → List Value → Res
  | [], _, acc => .ok acc
  | curr :: rest, index, acc =>
    if name = "last" then
      funcLoop doc lc A F name fullSource fromIdx toIdx position last isFilterContext
        rest (index + 1)
        (acc ++ [Value.num (.rat (if isFilterContext then last else fullSource.length))])
    else if name = "position" then
      funcLoop doc lc A F name fullSource fromIdx toIdx position last isFilterContext
        rest (index + 1)
        (acc ++ [Value.num (.rat (if isFilterContext then position else index))])
    else if name = "text" then
      funcLoop doc lc A F name fullSource fromIdx toIdx position last isFilterContext
        rest (index + 1) (acc ++ textValue doc curr)
    else if name = "count" then
      match F.evaluateAgainst (some fullSource) (fromIdx + 2) (toIdx - 1) false
          position 0 isFilterContext none with
      | .error e => .error e
      | .ok argumentEvaluated =>
        funcLoop doc lc A F name fullSource fromIdx toIdx position last isFilterContext
          rest (index + 1) (acc ++ [Value.num (.rat argumentEvaluated.length)])
    else if name = "data" then
      match F.evaluateAgainst (some fullSource) (fromIdx + 2) (toIdx - 1) false
          position 0 isFilterContext none with
      | .error e => .error e
      | .ok argumentEvaluated =>
        funcLoop doc lc A F name fullSource fromIdx toIdx position last isFilterContext
          rest (index + 1)
          (acc ++ argumentEvaluated.filter (fun v => isElemValue v || isStrValue v))
    else
      .error (.xpather (some ("Unknown function " ++ name ++ "!")))

/-- The `source.forEach` loop of `filterByCondition`: evaluate the
predicate range against the singleton `[curr]` with `position = index`,
`last = srcLen`, `isFilterContext = true`, `filterSource = [curr]`, then
keep `curr` according to the first returned value. -/
def filterLoop (doc : DomNode) (lc : String → String → Int) (A : List String)
    (F : Fns) (srcLen fromIdx toIdx : Int) :
    List Value → Int → List Value → Res
  | [], _, acc => .ok acc
  | curr :: rest, index, acc =>
    match F.evaluateAgainst (some [curr]) fromIdx toIdx false index srcLen true
        (some [curr]) with
    | .error e => .error e
    | .ok logicValueList =>
      let keep : Bool :=
        match logicValueList with
        | [] => false
        | first :: _ =>
          match first with
          | .bool b => b
          | .num n => jsNumEqInt n index
          | _ => true
      filterLoop doc lc A F srcLen fromIdx toIdx rest (index + 1)
        (if keep then acc ++ [curr] else acc)

/-- The attribute-axis loop of `getElementsByName`: for each node, extract
the attribute value(s) and pass them through the remainder of the range;
a non-element node raises `throwStandardException()`. -/
def attLoop (doc : DomNode) (lc : String → String → Int) (A : List String)
    (F : Fns) (name : String) (fromIdx toIdx : Int) (isFilterContext : Bool) :
    List Value → List Value → Res
  | [], acc => .ok acc
  | next :: rest, acc =>
    match next with
    | .elem p =>
      if name = "*" then
        match F.evaluateAgainst (some ((jsObjectValues (attrsOf doc p)).map Value.str))
            (fromIdx + 1) toIdx false 1 1 isFilterContext none with
        | .error e => .error e
        | .ok vs => attLoop doc lc A F name fromIdx toIdx isFilterContext rest (acc ++ vs)
      else
        match getAttributeByName doc p name with
        | some attValue =>
          match F.evaluateAgainst (some [Value.str attValue])
              (fromIdx + 1) toIdx false 1 1 isFilterContext none with
          | .error e => .error e
          | .ok vs => attLoop doc lc A F name fromIdx toIdx isFilterContext rest (acc ++ vs)
        | none => attLoop doc lc A F name fromIdx toIdx isFilterContext rest acc
    | _ => .error (.xpather none)

/-- The inner `for (const childTag of childTags)` loop of the recursive
branch of `getElementsByName`: recurse into the child with the same token
range, add the child itself when the bug-compatible membership test fires,
then add all of the recursive results. -/
def childLoop (doc : DomNode) (lc : String → String → Int) (A : List String)
    (F : Fns) (fromIdx toIdx : Int) (isRecursive isFilterContext : Bool)
    (refinedSubnodes : List Value) (isSelf isParent isAll : Bool) :
    List Path → List Value → Res
  | [], acc => .ok acc
  | c :: rest, acc =>
    match F.getElementsByName [Value.elem c] fromIdx toIdx isRecursive isFilterContext with
    | .error e => .error e
    | .ok childrenByName =>
      let acc1 :=
        if ¬ isSelf ∧ ¬ isParent ∧ ¬ isAll ∧ Value.elem c ∈ refinedSubnodes then
          insertVal acc (Value.elem c)
        else acc
      childLoop doc lc A F fromIdx toIdx isRecursive isFilterContext refinedSubnodes
        isSelf isParent isAll rest (insertAllVals acc1 childrenByName)

/-- Model of `getParent(node)`, as the `..` step uses it: the root element's parent
is the document node, which is not an element, so `getParent` throws the
plain `Error` of the DOM adapter; otherwise `subnodes = [parent]`. -/
def parentSubnodes : Path → Except EvalError (List Path)
  | [] => .error (.jsError "Parent node is not an TagNode")
  | p => .ok [p.dropLast]

/-- The subnodes of one source element for a name step: itself for `.`,
its parent for `..`, all element children for `*`, and the name-matched
children otherwise. -/
def subnodesFor (doc : DomNode) (name : String) (p : Path) :
    Except EvalError (List Path) :=
  if name = "." then .ok [p]
  else if name = ".." then parentSubnodes p
  else if name = "*" then .ok (childTagPaths doc p)
  else .ok (childTagPathsNamed doc p name)

/-- The element-axis loop of `getElementsByName`: `index` is the 1-based
counter over element sources; a non-element source raises
`throwStandardException()`. -/
def elemLoop (doc : DomNode) (lc : String → String → Int) (A : List String)
    (F : Fns) (name : String) (fromIdx toIdx : Int)
    (isRecursive isFilterContext : Bool) :
    List Value → Int → List Value → Res
  | [], _, acc => .ok acc
  | next :: rest, index, acc =>
    match next with
    | .elem p =>
      let index1 := index + 1
      let isSelf := name = "."
      let isParent := name = ".."
      let isAll := name = "*"
      match subnodesFor doc name p with
      | .error e => .error e
      | .ok subnodes =>
        let nodeSetList := insertAllVals [] (subnodes.map Value.elem)
        match F.evaluateAgainst (some nodeSetList) (fromIdx + 1) toIdx false
            index1 nodeSetList.length isFilterContext none with
        | .error e => .error e
        | .ok refinedSubnodes =>
          if isRecursive then
            let childTags := childTagPaths doc p
            let acc1 :=
              if isSelf ∨ isParent ∨ isAll then insertAllVals acc refinedSubnodes else acc
            match childLoop doc lc A F fromIdx toIdx isRecursive isFilterContext
                refinedSubnodes isSelf isParent isAll childTags acc1 with
            | .error e => .error e
            | .ok acc2 =>
              elemLoop doc lc A F name fromIdx toIdx isRecursive isFilterContext
                rest index1 acc2
          else
            elemLoop doc lc A F name fromIdx toIdx isRecursive isFilterContext
              rest index1 (insertAllVals acc refinedSubnodes)
    | _ => .error (.xpather none)

/-- Model of `evaluateAgainst` at `fuel + 1`, in terms of the bundle `F` at `fuel`:
the dispatch chain of the source, in source order. -/
def stepEvaluateAgainst (doc : DomNode) (lc : String → String → Int)
    (A : List String) (F : Fns) (obj : Option (List Value)) (fromIdx toIdx : Int)
    (isRecursive : Bool) (position last : Int) (isFilterContext : Bool)
    (filterSource : Option (List Value)) : Res :=
    if 0 ≤ fromIdx ∧ toIdx < (A.length : Int) ∧ fromIdx ≤ toIdx then
      if jsTrim (tokGet A fromIdx) = "" then
        F.evaluateAgainst obj (fromIdx + 1) toIdx isRecursive position last
          isFilterContext filterSource
      else if isToken A "(" fromIdx then
        let closingBracket := findClosingIndex A fromIdx toIdx
        if closingBracket > 0 then
          match F.evaluateAgainst obj (fromIdx + 1) (closingBracket - 1) false
              position last isFilterContext filterSource with
          | .error e => .error e
          | .ok value =>
            F.evaluateAgainst (some value) (closingBracket + 1) toIdx false
              position last isFilterContext filterSource
        else .error (.xpather none)
      else if isToken A "[" fromIdx then
        let closingBracket := findClosingIndex A fromIdx toIdx
        if closingBracket > 0 then
          match (match obj with
                 | some l => F.filterByCondition l (fromIdx + 1) (closingBracket - 1)
                 | none => .ok []) with
          | .error e => .error e
          | .ok value =>
            F.evaluateAgainst (some value) (closingBracket + 1) toIdx false
              position last isFilterContext filterSource
        else .error (.xpather none)
      else if isToken A "\"" fromIdx ∨ isToken A "'" fromIdx then
        let closingQuote := findClosingIndex A fromIdx toIdx
        if closingQuote > fromIdx then
          let value := [Value.str (flatten A (fromIdx + 1) (closingQuote - 1))]
          F.evaluateAgainst (some value) (closingQuote + 1) toIdx false
            position last isFilterContext filterSource
        else .error (.xpather none)
      else if (isToken A "=" fromIdx ∨ isToken A "<" fromIdx ∨ isToken A ">" fromIdx)
          ∧ isFilterContext then
        if isToken A "=" (fromIdx + 1) ∧ (isToken A "<" fromIdx ∨ isToken A ">" fromIdx)
        then
          match F.evaluateAgainst filterSource (fromIdx + 2) toIdx false position
              last isFilterContext filterSource with
          | .error e => .error e
          | .ok secondObject =>
            .ok [Value.bool (evaluateLogic doc lc obj secondObject
              (tokGet A fromIdx ++ tokGet A (fromIdx + 1)))]
        else
          match F.evaluateAgainst filterSource (fromIdx + 1) toIdx false position
              last isFilterContext filterSource with
          | .error e => .error e
          | .ok secondObject =>
            .ok [Value.bool (evaluateLogic doc lc obj secondObject (tokGet A fromIdx))]
      else if isToken A "/" fromIdx then
        let goRecursive := isToken A "/" (fromIdx + 1)
        let fromIdx2 := if goRecursive then fromIdx + 1 else fromIdx
        if fromIdx2 < toIdx then
          let t0 := findClosingIndex A fromIdx2 toIdx - 1
          let toIndex := if t0 ≤ fromIdx2 then toIdx else t0
          match F.evaluateAgainst obj (fromIdx2 + 1) toIndex goRecursive 1 last
              isFilterContext filterSource with
          | .error e => .error e
          | .ok value =>
            F.evaluateAgainst (some value) (toIndex + 1) toIdx false 1 last
              isFilterContext filterSource
        else .error (.xpather none)
      else if isFunctionCall A fromIdx toIdx then
        let closingBracketIndex := findClosingIndex A (fromIdx + 1) toIdx
        match (match obj with
               | some l =>
                 F.evaluateFunction l fromIdx toIdx position last isFilterContext
               | none => .ok []) with
        | .error e => .error e
        | .ok funcValue =>
          F.evaluateAgainst (some funcValue) (closingBracketIndex + 1) toIdx false 1
            last isFilterContext filterSource
      else if isValidInteger (tokGet A fromIdx) then
        F.evaluateAgainst (some [Value.num (parseIntJS (tokGet A fromIdx))])
          (fromIdx + 1) toIdx false position last isFilterContext filterSource
      else if isValidDouble (tokGet A fromIdx) then
        F.evaluateAgainst (some [Value.num (parseFloatJS (tokGet A fromIdx))])
          (fromIdx + 1) toIdx false position last isFilterContext filterSource
      else
        match obj with
        | some l => F.getElementsByName l fromIdx toIdx isRecursive isFilterContext
        | none => .ok []
    else
      .ok (obj.getD [])

/-- Model of `evaluateFunction` at `fuel + 1`. -/
def stepEvaluateFunction (doc : DomNode) (lc : String → String → Int)
    (A : List String) (F : Fns) (source : List Value) (fromIdx toIdx : Int)
    (position last : Int) (isFilterContext : Bool) : Res :=
  funcLoop doc lc A F (jsTrim (tokGet A fromIdx)) source fromIdx toIdx position
    last isFilterContext source 1 []

/-- Model of `filterByCondition` at `fuel + 1`. -/
def stepFilterByCondition (doc : DomNode) (lc : String → String → Int)
    (A : List String) (F : Fns) (source : List Value) (fromIdx toIdx : Int) : Res :=
  filterLoop doc lc A F (source.length : Int) fromIdx toIdx source 1 []

/-- Model of `getElementsByName` at `fuel + 1`. -/
def stepGetElementsByName (doc : DomNode) (lc : String → String → Int)
    (A : List String) (F : Fns) (source : List Value) (fromIdx toIdx : Int)
    (isRecursive isFilterContext : Bool) : Res :=
  let name := jsTrim (tokGet A fromIdx)
    if isAtt name then
      let name1 : String := ⟨name.data.tail⟩
      let nodes : List Value :=
        if isRecursive then
          source.foldl (fun s v =>
            match v with
            | .elem p => insertAllVals s ((descendantTagPaths doc p).map Value.elem)
            | _ => s) []
        else source
      attLoop doc lc A F name1 fromIdx toIdx isFilterContext nodes []
    else
      elemLoop doc lc A F name fromIdx toIdx isRecursive isFilterContext source 0 []

/-- One layer of the mutual recursion: the bundle at `fuel + 1` in terms of
the bundle `F` at `fuel`.  Each field mirrors the corresponding method of
`XPather`. -/
def stepFns (doc : DomNode) (lc : String → String → Int) (A : List String)
    (F : Fns) : Fns where
  evaluateAgainst := stepEvaluateAgainst doc lc A F
  evaluateFunction := stepEvaluateFunction doc lc A F
  filterByCondition := stepFilterByCondition doc lc A F
  getElementsByName := stepGetElementsByName doc lc A F

/-- The family of bundles, by structural recursion on the fuel. -/
def fns (doc : DomNode) (lc : String → String → Int) (A : List String) : Nat → Fns
  | 0 => zeroFns
  | f + 1 => stepFns doc lc A (fns doc lc A f)

/-- Model of `XPather.evaluateAgainst`, at a given fuel. -/
def evaluateAgainst (doc : DomNode) (lc : String → String → Int) (A : List String)
    (fuel : Nat) : Option (List Value) → Int → Int → Bool → Int → Int → Bool →
    Option (List Value) → Res :=
  (fns doc lc A fuel).evaluateAgainst

/-- Model of `XPather.evaluateFunction`, at a given fuel. -/
def evaluateFunction (doc : DomNode) (lc : String → String → Int) (A : List String)
    (fuel : Nat) : List Value → Int → Int → Int → Int → Bool → Res :=
  (fns doc lc A fuel).evaluateFunction

/-- Model of `XPather.filterByCondition`, at a given fuel. -/
def filterByCondition (doc : DomNode) (lc : String → String → Int) (A : List String)
    (fuel : Nat) : List Value → Int → Int → Res :=
  (fns doc lc A fuel).filterByCondition

/-- Model of `XPather.getElementsByName`, at a given fuel. -/
def getElementsByName (doc : DomNode) (lc : String → String → Int) (A : List String)
    (fuel : Nat) : List Value → Int → Int → Bool → Bool → Res :=
  (fns doc lc A fuel).getElementsByName

/-- Model of `XPather.evaluateAgainstNode` / the public `evaluateXPath(el, expr)`:
tokenize the expression and evaluate the whole range against `[el]` with
`isRecursive = false`, `position = 1`, `last = 0`, `isFilterContext =
false` (the `node === null` guard cannot fire in this model, where an
element reference is always a path). -/
def evaluateXPath (doc : DomNode) (lc : String → String → Int) (fuel : Nat)
    (p : Path) (expr : String) : Res :=
  let A := tokenize expr
  evaluateAgainst doc lc A fuel (some [Value.elem p]) 0 ((A.length : Int) - 1)
    false 1 0 false none

/-! ## Tokenizer round trip (C10) -/

theorem tokenizeChars_join (l : List Char) : (tokenizeChars l).join = l := by
  induction l with
  | nil => rfl
  | cons c rest ih =>
    rw [tokenizeChars]
    by_cases hd : c ∈ delims
    · simp [hd, ih]
    · simp only [hd, if_false, ite_false]
      cases hts : tokenizeChars rest with
      | nil =>
        rw [hts] at ih
        simp at ih
        simp [ih]
      | cons t ts' =>
        rw [hts] at ih
        cases t with
        | nil => simpa [hts] using congrArg (c :: ·) ih
        | cons d t' =>
          by_cases hdd : d ∈ delims
          · simpa [hts, hdd] using congrArg (c :: ·) ih
          · simp only [hdd, if_false, ite_false]
            simpa using congrArg (c :: ·) ih

theorem foldl_append_strings (ts : List (List Char)) (init : String) :
    (ts.map (fun l => (⟨l⟩ : String))).foldl (· ++ ·) init = ⟨init.data ++ ts.join⟩ := by
  induction ts generalizing init with
  | nil =>
    obtain ⟨d⟩ := init
    simp
  | cons l ts ih =>
    obtain ⟨d⟩ := init
    simpa [String.append] using ih ⟨d ++ l⟩

/-- C10: concatenating the tokens of the tokenizer's output in order
reproduces the input string exactly — tokenization only splits the
expression at the nine delimiter characters and discards the empty
fragments, losing no characters. -/
theorem tokenize_concat_id (s : String) : (tokenize s).foldl (· ++ ·) "" = s := by
  obtain ⟨d⟩ := s
  rw [tokenize, foldl_append_strings, tokenizeChars_join]
  rfl

/-! ## The double-literal classifier (C7) -/

/-- C7 (counterexample): `isValidDouble` accepts a lone sign character and
a token with two decimal points, both of which the claim says are
rejected. -/
theorem isValidDouble_accepts_lone_sign : isValidDouble "+" = true ∧
    isValidDouble "1..2" = true ∧ isValidDouble " " = true := by
  exact ⟨rfl, rfl, rfl⟩

/-- The shape `isValidDouble` actually accepts: nonempty, first character
a sign, a space or a digit, and every later character a digit or a decimal
point (any number of decimal points; no digit is required). -/
def doubleShape (s : String) : Prop :=
  match s.data with
  | [] => False
  | c :: rest =>
    (c = '+' ∨ c = '-' ∨ c = ' ' ∨ ('0' ≤ c ∧ c ≤ '9')) ∧
    ∀ d ∈ rest, d = '.' ∨ ('0' ≤ d ∧ d ≤ '9')

theorem doubleTail_iff (l : List Char) :
    doubleTail l = true ↔ ∀ d ∈ l, d = '.' ∨ ('0' ≤ d ∧ d ≤ '9') := by
  induction l with
  | nil => simp [doubleTail]
  | cons c r ih =>
    rw [doubleTail]
    by_cases hc : c ≠ '.' ∧ (c < '0' ∨ '9' < c)
    · rw [if_pos hc]
      constructor
      · intro h; exact absurd h (by simp)
      · intro h
        rcases h c (by simp) with h1 | h1
        · exact absurd h1 hc.1
        · rcases hc.2 with h2 | h2
          · exact absurd h1.1 (not_le.mpr h2)
          · exact absurd h1.2 (not_le.mpr h2)
    · rw [if_neg hc, ih]
      push_neg at hc
      constructor
      · intro h d hd
        rcases List.mem_cons.mp hd with hd | hd
        · subst hd
          by_cases hdot : d = '.'
          · exact Or.inl hdot
          · exact Or.inr (hc hdot)
        · exact h d hd
      · intro h d hd
        exact h d (List.mem_cons.mpr (Or.inr hd))

/-- C7 (amended): the classifier accepts exactly the tokens whose first
character is `+`, `-`, a space, or a digit, and whose remaining characters
are digits or decimal points; in particular lone signs and tokens with
several decimal points are accepted. -/
theorem isValidDouble_characterization (s : String) :
    isValidDouble s = true ↔ doubleShape s := by
  rw [isValidDouble, doubleShape]
  cases s.data with
  | nil => simp
  | cons c rest =>
    by_cases hc : c = '+' ∨ c = '-' ∨ c = ' ' ∨ ('0' ≤ c ∧ c ≤ '9')
    · simp [hc, doubleTail_iff]
    · simp [hc]

/-! ## Empty comparison operands (C8) -/

/-- C8: for every pair of operand lists and every operator, a missing or
empty operand makes the comparison return `false` (and `evaluateLogic` is
a total function into `Bool`, so no error is raised). -/
theorem evaluateLogic_empty_operand_false (doc : DomNode)
    (lc : String → String → Int) (first : Option (List Value))
    (second : List Value) (op : String)
    (h : first = none ∨ first = some [] ∨ second = []) :
    evaluateLogic doc lc first second op = false := by
  rcases h with h | h | h
  · subst h; rfl
  · subst h; cases second <;> rfl
  · subst h
    cases first with
    | none => rfl
    | some l1 => cases l1 <;> rfl

theorem evaluateLogic_empty_operand_false_witness :
    evaluateLogic (DomNode.text "") cpCompare none [Value.str "a"] "=" = false :=
  evaluateLogic_empty_operand_false (DomNode.text "") cpCompare none
    [Value.str "a"] "=" (Or.inl rfl)

/-! ## Locale-collated versus codepoint comparison (C3)

The source's string comparison is `s1.localeCompare(s2)`, whose ordering
is the host's default collation.  Under an ICU-style default collation
(`icuLikeCompare`, which orders letters case-insensitively before falling
back to codepoints) the comparison `'a' < 'B'` is true, while under the
codepoint ordering the spec prescribes it is false: the boolean the code
returns is *not* the codepoint one on every platform. -/

/-- C3: at the comparison `'a' < 'B'` the evaluator's result under a
conforming host collation (`true`) differs from the codepoint-ordering
result the claim prescribes for every platform (`false`). -/
theorem evaluateLogic_locale_vs_codepoint :
    evaluateLogic (DomNode.text "") icuLikeCompare
      (some [Value.str "a"]) [Value.str "B"] "<" = true ∧
    evaluateLogic (DomNode.text "") cpCompare
      (some [Value.str "a"]) [Value.str "B"] "<" = false := by
  exact ⟨rfl, rfl⟩

/-! ## Scenario 7: the bug-compatible recursive-axis leak (C2)

The public pipeline wraps the markup in `<html><head/><body>…</body></html>`
before evaluation, so the fixture document is that wrapper around
`<div><span>Foo</span><div>Bar</div></div>`; the outer `div` is the element
at path `[1, 0]` (second child of `html` is `body`, whose first child is
the `div`). -/

def scenario7Doc : DomNode :=
  .elem "html" [] [.elem "head" [] [],
    .elem "body" [] [.elem "div" [] [.elem "span" [] [.text "Foo"],
                                     .elem "div" [] [.text "Bar"]]]]

/-- C2: on `<div><span>Foo</span><div>Bar</div></div>`, both
`//div[.//span]` and `//div[//span]` evaluate to exactly one result, the
outer `div` element — the bug-compatible single hit, not the two `div`s
standard XPath would give for `//div[//span]`. -/
theorem scenario7_bug_compat :
    evaluateXPath scenario7Doc cpCompare 30 [] "//div[.//span]" =
      .ok [Value.elem [1, 0]] ∧
    evaluateXPath scenario7Doc cpCompare 30 [] "//div[//span]" =
      .ok [Value.elem [1, 0]] := by
  exact ⟨rfl, rfl⟩

/-! ## Unknown function names (C4)

The `throw new XPatherException('Unknown function …')` sits *inside* the
`source.forEach` callback of `evaluateFunction`, so with an empty source
list no iteration runs and no error is raised: `zzz/foo(x)` evaluated
against a document with no `zzz` child reaches `foo(…)` with the empty
value-list and returns `[]` successfully. -/

/-- C4 (counterexample): the expression `zzz/foo(x)` contains the function
call `foo(…)`, whose name is not one of the five supported functions; it
reaches that call with the empty value-list and evaluation succeeds with
`[]` instead of raising an error. -/
theorem unknown_function_empty_reach_ok :
    evaluateXPath (DomNode.elem "a" [] []) cpCompare 50 [] "zzz/foo(x)" =
      .ok [] := by
  exact rfl

/-- C4 (amended): for every *nonempty* value-list reaching a call of a
function whose (trimmed) name is not `last`, `position`, `text`, `count`
or `data`, `evaluateFunction` raises `XPatherException "Unknown function
…!"`; with the empty value-list it returns `[]` without error. -/
theorem unknown_function_nonempty_errors (doc : DomNode)
    (lc : String → String → Int) (A : List String) (f : Nat)
    (src : List Value) (i j position last : Int) (fc : Bool)
    (hsrc : src ≠ [])
    (hname : jsTrim (tokGet A i) ≠ "last" ∧ jsTrim (tokGet A i) ≠ "position" ∧
      jsTrim (tokGet A i) ≠ "text" ∧ jsTrim (tokGet A i) ≠ "count" ∧
      jsTrim (tokGet A i) ≠ "data") :
    evaluateFunction doc lc A (f + 1) src i j position last fc =
      .error (.xpather (some ("Unknown function " ++ jsTrim (tokGet A i) ++ "!"))) := by
  obtain ⟨h1, h2, h3, h4, h5⟩ := hname
  cases src with
  | nil => exact absurd rfl hsrc
  | cons v rest =>
    show funcLoop doc lc A (fns doc lc A f) (jsTrim (tokGet A i)) (v :: rest) i j
      position last fc (v :: rest) 1 [] = _
    rw [funcLoop, if_neg h1, if_neg h2, if_neg h3, if_neg h4, if_neg h5]

theorem unknown_function_nonempty_errors_witness :
    evaluateFunction (DomNode.text "") cpCompare ["foo", "(", "x", ")"] 1
      [Value.str "s"] 0 3 1 0 false =
      .error (.xpather (some "Unknown function foo!")) :=
  unknown_function_nonempty_errors (DomNode.text "") cpCompare
    ["foo", "(", "x", ")"] 0 [Value.str "s"] 0 3 1 0 false
    (by simp) (by refine ⟨?_, ?_, ?_, ?_, ?_⟩ <;> decide)

/-! ## Non-elements in the attribute axis (C5)

When `isRecursive` is true, the attribute branch of `getElementsByName`
builds its node pool only from the *element* values of the source
(`if (isElement(next)) addAll(…)`), so non-element values are silently
skipped; the `throwStandardException()` in the extraction loop is only
reachable with `isRecursive` false, where `nodes` is the raw source. -/

/-- C5 (counterexample): an attribute-axis step (`@id`) whose input
value-list contains a non-element (the string `"x"`) does *not* raise an
error when `isRecursive` is true: the non-element is skipped and the step
returns `[]`. -/
theorem attribute_axis_recursive_skips_nonelement :
    getElementsByName (DomNode.elem "a" [] []) cpCompare ["@id"] 5
      [Value.str "x"] 0 0 true false = .ok [] := by
  exact rfl

theorem evaluateAgainst_out_of_range (doc : DomNode)
    (lc : String → String → Int) (A : List String) (f : Nat)
    (obj : Option (List Value)) (i j : Int) (rec₀ : Bool) (pos lst : Int)
    (fc : Bool) (fs : Option (List Value))
    (h : ¬(0 ≤ i ∧ j < (A.length : Int) ∧ i ≤ j)) :
    evaluateAgainst doc lc A (f + 1) obj i j rec₀ pos lst fc fs =
      .ok (obj.getD []) := by
  show stepEvaluateAgainst doc lc A (fns doc lc A f) obj i j rec₀ pos lst fc fs
    = .ok (obj.getD [])
  rw [stepEvaluateAgainst.eq_def]
  exact if_neg h

theorem attLoop_nonelement_errors (doc : DomNode)
    (lc : String → String → Int) (A : List String) (f : Nat)
    (name : String) (i : Int) (fc : Bool) :
    ∀ (rem : List Value) (acc : List Value),
      (∃ v ∈ rem, isElemValue v = false) →
      attLoop doc lc A (fns doc lc A (f + 1)) name i i fc rem acc =
        .error (.xpather none) := by
  intro rem
  induction rem with
  | nil => intro acc h; simp at h
  | cons next rest ih =>
    intro acc h
    have hoor : ¬(0 ≤ i + 1 ∧ i < (A.length : Int) ∧ i + 1 ≤ i) := by
      intro hcon; omega
    cases next with
    | elem p =>
      have hrest : ∃ v ∈ rest, isElemValue v = false := by
        rcases h with ⟨v, hv, hve⟩
        rcases List.mem_cons.mp hv with hv | hv
        · subst hv; simp [isElemValue] at hve
        · exact ⟨v, hv, hve⟩
      have hoor' : ∀ obj, (fns doc lc A (f + 1)).evaluateAgainst obj (i + 1) i
          false 1 1 fc none = .ok (obj.getD []) := fun obj =>
        evaluateAgainst_out_of_range doc lc A f obj (i + 1) i false 1 1 fc none hoor
      rw [attLoop]
      by_cases hstar : name = "*"
      · simp only [if_pos hstar, hoor', Option.getD_some]
        exact ih _ hrest
      · simp only [if_neg hstar]
        cases hatt : getAttributeByName doc p name with
        | some attValue =>
          simp only [hoor', Option.getD_some]
          exact ih _ hrest
        | none => exact ih _ hrest
    | str s => rfl
    | num n => rfl
    | bool b => rfl

/-- C5 (amended): an attribute-axis step whose input value-list contains a
non-element raises `XPatherException` when `isRecursive` is false; when
`isRecursive` is true the non-element values are silently skipped. -/
theorem attribute_axis_nonrecursive_nonelement_errors (doc : DomNode)
    (lc : String → String → Int) (A : List String) (f : Nat) (i : Int)
    (fc : Bool) (src : List Value)
    (hatt : isAtt (jsTrim (tokGet A i)) = true)
    (hne : ∃ v ∈ src, isElemValue v = false) :
    getElementsByName doc lc A (f + 2) src i i false fc =
      .error (.xpather none) := by
  show stepGetElementsByName doc lc A (fns doc lc A (f + 1)) src i i false fc
    = .error (.xpather none)
  rw [stepGetElementsByName]
  simp only [hatt, if_true, ite_true, Bool.false_eq_true, if_false, ite_false]
  exact attLoop_nonelement_errors doc lc A f _ i fc src [] hne

theorem attribute_axis_nonrecursive_nonelement_errors_witness :
    getElementsByName (DomNode.text "") cpCompare ["@id"] 2 [Value.str "x"]
      0 0 false false = .error (.xpather none) :=
  attribute_axis_nonrecursive_nonelement_errors (DomNode.text "") cpCompare
    ["@id"] 0 0 false [Value.str "x"] (by decide)
    ⟨Value.str "x", by simp, rfl⟩

/-! ## What the attribute axis returns (C6)

The attribute branch pushes not the attribute values themselves but the
result of evaluating the *remainder of the range* against each attribute
value.  Inside a predicate such as `[@id='x']` that remainder is a
comparison, so the attribute axis returns a boolean.  Only when nothing
follows the attribute token is the returned list all strings. -/

/-- C6 (counterexample): the attribute-axis step `@id` followed by the
comparison `='x'` (the token range of the predicate `[@id='x']`), applied
in filter context to an element with `id="x"`, returns `[true]` — a
boolean, not a string. -/
theorem attribute_axis_returns_boolean :
    getElementsByName (DomNode.elem "a" [("id", "x")] []) cpCompare
      ["@id", "=", "'", "x", "'"] 10 [Value.elem []] 0 4 false true =
      .ok [Value.bool true] := by
  exact rfl

theorem attLoop_tail_strings (doc : DomNode) (lc : String → String → Int)
    (A : List String) (name : String) (i : Int) (fc : Bool) (F : Fns)
    (hF : ∀ obj, F.evaluateAgainst obj (i + 1) i false 1 1 fc none =
        .ok (obj.getD []) ∨
      ∃ e, F.evaluateAgainst obj (i + 1) i false 1 1 fc none = .error e) :
    ∀ (rem acc : List Value) (res : List Value),
      (∀ v ∈ acc, isStrValue v = true) →
      attLoop doc lc A F name i i fc rem acc = .ok res →
      ∀ v ∈ res, isStrValue v = true := by
  intro rem
  induction rem with
  | nil =>
    intro acc res hacc h
    rw [attLoop] at h
    cases h
    exact hacc
  | cons next rest ih =>
    intro acc res hacc h
    cases next with
    | elem p =>
      rw [attLoop] at h
      by_cases hstar : name = "*"
      · rw [if_pos hstar] at h
        rcases hF (some ((jsObjectValues (attrsOf doc p)).map Value.str)) with
          hE | ⟨e, hE⟩
        · simp only [hE, Option.getD_some] at h
          refine ih _ res ?_ h
          intro v hv
          rcases List.mem_append.mp hv with hv | hv
          · exact hacc v hv
          · rcases List.mem_map.mp hv with ⟨s, _, rfl⟩
            rfl
        · simp only [hE] at h
          exact absurd h (by simp)
      · rw [if_neg hstar] at h
        cases hatt : getAttributeByName doc p name with
        | some attValue =>
          rw [hatt] at h
          rcases hF (some [Value.str attValue]) with hE | ⟨e, hE⟩
          · simp only [hE, Option.getD_some] at h
            refine ih _ res ?_ h
            intro v hv
            rcases List.mem_append.mp hv with hv | hv
            · exact hacc v hv
            · rcases List.mem_singleton.mp hv with rfl
              rfl
          · simp only [hE] at h
            exact absurd h (by simp)
        | none =>
          rw [hatt] at h
          exact ih _ res hacc h
    | str s => simp [attLoop] at h
    | num n => simp [attLoop] at h
    | bool b => simp [attLoop] at h

/-- C6 (amended): every value the attribute axis extracts from an
element's attributes is a string, and when the attribute token is the
*last* token of its range the whole returned list consists of strings;
tokens following the attribute token (a comparison, a grouped literal, …)
may turn those strings into booleans or numbers. -/
theorem attribute_axis_tail_values_are_strings (doc : DomNode)
    (lc : String → String → Int) (A : List String) (f : Nat)
    (src : List Value) (i : Int) (rec₀ fc : Bool) (res : List Value)
    (hatt : isAtt (jsTrim (tokGet A i)) = true)
    (h : getElementsByName doc lc A f src i i rec₀ fc = .ok res) :
    ∀ v ∈ res, isStrValue v = true := by
  cases f with
  | zero => cases h
  | succ g =>
    rw [show getElementsByName doc lc A (g + 1) src i i rec₀ fc =
        stepGetElementsByName doc lc A (fns doc lc A g) src i i rec₀ fc
      from rfl, stepGetElementsByName] at h
    simp only [hatt, if_true, ite_true] at h
    have hF : ∀ obj, (fns doc lc A g).evaluateAgainst obj (i + 1) i false 1 1
        fc none = .ok (obj.getD []) ∨
        ∃ e, (fns doc lc A g).evaluateAgainst obj (i + 1) i false 1 1 fc none =
          .error e := by
      intro obj
      cases g with
      | zero => exact Or.inr ⟨.outOfFuel, rfl⟩
      | succ g' =>
        exact Or.inl (evaluateAgainst_out_of_range doc lc A g' obj (i + 1) i
          false 1 1 fc none (by intro hcon; omega))
    exact attLoop_tail_strings doc lc A _ i fc (fns doc lc A g) hF _ [] res
      (by intro v hv; cases hv) h

theorem attribute_axis_tail_values_are_strings_witness :
    isStrValue (Value.str "x") = true :=
  attribute_axis_tail_values_are_strings (DomNode.elem "a" [("id", "x")] [])
    cpCompare ["@id"] 2 [Value.elem []] 0 false false [Value.str "x"]
    (by decide) rfl (Value.str "x") (by simp)

/-! ## The filter subroutine (C1)

`filterByCondition` is characterised by a specification written from the
spec's own words: for each value `v` at 1-based index `i`, evaluate the
predicate range against the singleton `[v]` with `position = i`,
`last = |values|`, `isFilterContext = true` and `filterSource = [v]`; keep
`v` exactly when the returned list is non-empty and its first element is
the boolean `true`, or a number equal to `i`, or neither a boolean nor a
number (`keepValue`); drop `v` on an empty result. -/

/-- Whether the filter subroutine keeps the value whose predicate
evaluation returned `l` at 1-based index `idx`: the list is non-empty and
its first element is the boolean `true`, or a number equal to `idx`, or
neither a boolean nor a number. -/
def keepValue : List Value → Int → Bool
  | [], _ => false
  | first :: _, idx =>
    (match first with | .bool b => b = true | _ => false) ||
    (match first with | .num n => jsNumEqInt n idx | _ => false) ||
    (match first with | .bool _ => false | .num _ => false | _ => true)

/-- The filter subroutine as the spec states it, at one fuel level of the
predicate evaluator: evaluate each value's predicate on the singleton with
the filter-context parameters and keep by `keepValue` (errors propagate in
iteration order, as thrown exceptions do). -/
def filterSpecGo (doc : DomNode) (lc : String → String → Int) (A : List String)
    (f : Nat) (srcLen fromIdx toIdx : Int) : List Value → Int → Res
  | [], _ => .ok []
  | v :: rest, idx =>
    match evaluateAgainst doc lc A f (some [v]) fromIdx toIdx false idx srcLen
        true (some [v]) with
    | .error e => .error e
    | .ok l =>
      match filterSpecGo doc lc A f srcLen fromIdx toIdx rest (idx + 1) with
      | .error e => .error e
      | .ok r => .ok (if keepValue l idx then v :: r else r)

/-- The spec-side filter subroutine over a whole value list. -/
def filterByConditionSpec (doc : DomNode) (lc : String → String → Int)
    (A : List String) (f : Nat) (source : List Value) (fromIdx toIdx : Int) : Res :=
  filterSpecGo doc lc A f (source.length : Int) fromIdx toIdx source 1

theorem keepValue_eq_code (l : List Value) (idx : Int) :
    (match l with
     | [] => false
     | first :: _ =>
       match first with
       | .bool b => b
       | .num n => jsNumEqInt n idx
       | _ => true) = keepValue l idx := by
  cases l with
  | nil => rfl
  | cons first rest =>
    cases first with
    | elem p => rfl
    | str s => rfl
    | num n => simp [keepValue]
    | bool b => cases b <;> simp [keepValue]

theorem filterLoop_eq_spec (doc : DomNode) (lc : String → String → Int)
    (A : List String) (f : Nat) (srcLen fromIdx toIdx : Int) :
    ∀ (rem : List Value) (idx : Int) (acc : List Value),
      filterLoop doc lc A (fns doc lc A f) srcLen fromIdx toIdx rem idx acc =
        match filterSpecGo doc lc A f srcLen fromIdx toIdx rem idx with
        | .error e => .error e
        | .ok r => .ok (acc ++ r) := by
  intro rem
  induction rem with
  | nil => intro idx acc; simp [filterLoop, filterSpecGo]
  | cons v rest ih =>
    intro idx acc
    rw [filterLoop, filterSpecGo]
    cases hE : evaluateAgainst doc lc A f (some [v]) fromIdx toIdx false idx
        srcLen true (some [v]) with
    | error e =>
      rw [show (fns doc lc A f).evaluateAgainst (some [v]) fromIdx toIdx false idx
          srcLen true (some [v]) = .error e from hE]
    | ok l =>
      rw [show (fns doc lc A f).evaluateAgainst (some [v]) fromIdx toIdx false idx
          srcLen true (some [v]) = .ok l from hE]
      simp only [keepValue_eq_code l idx, ih (idx + 1)]
      cases hS : filterSpecGo doc lc A f srcLen fromIdx toIdx rest (idx + 1) with
      | error e => rfl
      | ok r =>
        by_cases hk : keepValue l idx = true
        · simp [hk]
        · simp [hk]

/-- C1: for every value list and predicate token range, the filter
subroutine evaluates the predicate range against the singleton `[v]` of
each value `v` at 1-based index `i`, with `position = i`, `last` the
length of the input list, `isFilterContext = true` and
`filterSource = [v]`, and keeps `v` exactly when the returned list is
non-empty and its first element is the boolean `true`, a number equal to
`i`, or neither a boolean nor a number; an empty predicate result drops
`v`. -/
theorem filterByCondition_matches_filter_subroutine (doc : DomNode)
    (lc : String → String → Int) (A : List String) (f : Nat)
    (source : List Value) (fromIdx toIdx : Int) :
    filterByCondition doc lc A (f + 1) source fromIdx toIdx =
      filterByConditionSpec doc lc A f source fromIdx toIdx := by
  show filterLoop doc lc A (fns doc lc A f) (source.length : Int) fromIdx toIdx
    source 1 [] = _
  rw [filterLoop_eq_spec]
  rw [filterByConditionSpec]
  cases filterSpecGo doc lc A f (source.length : Int) fromIdx toIdx source 1 with
  | error e => rfl
  | ok r => simp

/-! ## Axis composition: `//x` versus `.//x` (C9)

Both expressions reduce to the same recursive name-step
`getElementsByName [e] _ _ true false` on the single token `x`; the `.//`
form additionally passes the result through a `Set` (which is a no-op,
because the recursive name step already returns a duplicate-free list).
The two paths through the evaluator consume different amounts of fuel, so
the theorem aligns them with explicit offsets (`f + 2` against `f + 4`):
at every aligned fuel pair the two value-lists are equal. -/

theorem fns_evalA_oob (doc : DomNode) (lc : String → String → Int)
    (A : List String) (f : Nat) (obj : Option (List Value)) (i j : Int)
    (rec₀ : Bool) (pos lst : Int) (fc : Bool) (fs : Option (List Value))
    (h : ¬(0 ≤ i ∧ j < (A.length : Int) ∧ i ≤ j)) :
    (fns doc lc A f).evaluateAgainst obj i j rec₀ pos lst fc fs =
      match f with
      | 0 => .error .outOfFuel
      | _ + 1 => .ok (obj.getD []) := by
  cases f with
  | zero => rfl
  | succ g => exact evaluateAgainst_out_of_range doc lc A g obj i j rec₀ pos lst fc fs h

theorem insertVal_nodup {s : List Value} {v : Value} (h : s.Nodup) :
    (insertVal s v).Nodup := by
  rw [insertVal]
  split
  · exact h
  · next hv =>
    refine List.Nodup.append h (List.nodup_singleton v) ?_
    intro x hx hx2
    rw [List.mem_singleton.mp hx2] at hx
    exact hv hx

theorem insertAllVals_nodup : ∀ {l : List Value} {s : List Value}, s.Nodup →
    (insertAllVals s l).Nodup := by
  intro l
  induction l with
  | nil => intro s h; exact h
  | cons x xs ih =>
    intro s h
    exact ih (insertVal_nodup h)

theorem insertAllVals_disjoint_append : ∀ (l s : List Value), l.Nodup →
    (∀ x ∈ l, x ∉ s) → insertAllVals s l = s ++ l := by
  intro l
  induction l with
  | nil => intro s _ _; simp [insertAllVals]
  | cons x xs ih =>
    intro s h hd
    have hx : x ∉ s := hd x (by simp)
    have h1 : insertAllVals s (x :: xs) = insertAllVals (s ++ [x]) xs := by
      show insertAllVals (insertVal s x) xs = _
      rw [insertVal, if_neg hx]
    rw [h1, ih (s ++ [x]) h.of_cons]
    · simp
    · intro y hy hmem
      rcases List.mem_append.mp hmem with hmem | hmem
      · exact hd y (by simp [hy]) hmem
      · rw [List.mem_singleton.mp hmem] at hy
        exact (List.nodup_cons.mp h).1 hy

theorem insertAllVals_nil_of_nodup {l : List Value} (h : l.Nodup) :
    insertAllVals [] l = l := by
  simpa using insertAllVals_disjoint_append l [] h (by simp)

theorem childLoop_nodup (doc : DomNode) (lc : String → String → Int)
    (A : List String) (F : Fns) (i j : Int) (rec₀ fc : Bool)
    (refs : List Value) (sS sP sA : Bool) :
    ∀ (rem : List Path) (acc res : List Value), acc.Nodup →
      childLoop doc lc A F i j rec₀ fc refs sS sP sA rem acc = .ok res →
      res.Nodup := by
  intro rem
  induction rem with
  | nil =>
    intro acc res h hc
    rw [childLoop] at hc
    cases hc
    exact h
  | cons c rest ih =>
    intro acc res h hc
    rw [childLoop] at hc
    cases hG : F.getElementsByName [Value.elem c] i j rec₀ fc with
    | error e =>
      simp only [hG] at hc
      exact absurd hc (by simp)
    | ok childrenByName =>
      simp only [hG] at hc
      refine ih _ res ?_ hc
      apply insertAllVals_nodup
      split
      · exact insertVal_nodup h
      · exact h

theorem elemLoop_nodup (doc : DomNode) (lc : String → String → Int)
    (A : List String) (F : Fns) (name : String) (i j : Int) (rec₀ fc : Bool) :
    ∀ (rem : List Value) (idx : Int) (acc res : List Value), acc.Nodup →
      elemLoop doc lc A F name i j rec₀ fc rem idx acc = .ok res →
      res.Nodup := by
  intro rem
  induction rem with
  | nil =>
    intro idx acc res h hc
    rw [elemLoop] at hc
    cases hc
    exact h
  | cons next rest ih =>
    intro idx acc res h hc
    cases next with
    | elem p =>
      rw [elemLoop] at hc
      cases hsub : subnodesFor doc name p with
      | error e =>
        simp only [hsub] at hc
        exact absurd hc (by simp)
      | ok subnodes =>
        simp only [hsub] at hc
        cases hR : F.evaluateAgainst
            (some (insertAllVals [] (subnodes.map Value.elem))) (i + 1) j false
            (idx + 1) ((insertAllVals [] (subnodes.map Value.elem)).length : Int)
            fc none with
        | error e =>
          simp only [hR] at hc
          exact absurd hc (by simp)
        | ok refined =>
          simp only [hR] at hc
          cases rec₀ with
          | false =>
            simp only [Bool.false_eq_true, if_false, ite_false] at hc
            exact ih _ _ res (insertAllVals_nodup h) hc
          | true =>
            simp only [if_true, ite_true] at hc
            cases hcl : childLoop doc lc A F i j true fc refined (name = ".")
                (name = "..") (name = "*") (childTagPaths doc p)
                (if name = "." ∨ name = ".." ∨ name = "*" then
                  insertAllVals acc refined else acc) with
            | error e =>
              simp only [hcl] at hc
              exact absurd hc (by simp)
            | ok acc2 =>
              simp only [hcl] at hc
              refine ih _ _ res ?_ hc
              refine childLoop_nodup doc lc A F i j true fc refined _ _ _
                (childTagPaths doc p) _ acc2 ?_ hcl
              split
              · exact insertAllVals_nodup h
              · exact h
    | str s => simp [elemLoop] at hc
    | num n => simp [elemLoop] at hc
    | bool b => simp [elemLoop] at hc

theorem gebn_nodup (doc : DomNode) (lc : String → String → Int)
    (A : List String) (f : Nat) (src : List Value) (i j : Int) (rec₀ fc : Bool)
    (res : List Value) (hatt : isAtt (jsTrim (tokGet A i)) = false)
    (h : getElementsByName doc lc A f src i j rec₀ fc = .ok res) : res.Nodup := by
  cases f with
  | zero => cases h
  | succ g =>
    rw [show getElementsByName doc lc A (g + 1) src i j rec₀ fc =
        stepGetElementsByName doc lc A (fns doc lc A g) src i j rec₀ fc
      from rfl, stepGetElementsByName] at h
    simp only [hatt, Bool.false_eq_true, if_false, ite_false] at h
    exact elemLoop_nodup doc lc A (fns doc lc A g) _ i j rec₀ fc src 0 [] res
      List.nodup_nil h

theorem attLoop_bridge (doc : DomNode) (lc : String → String → Int)
    (A B : List String) (FA FB : Fns) (n1 : String) (iA iB : Int) (fc : Bool)
    (hT : ∀ obj, FA.evaluateAgainst obj (iA + 1) iA false 1 1 fc none =
      FB.evaluateAgainst obj (iB + 1) iB false 1 1 fc none) :
    ∀ (rem acc : List Value),
      attLoop doc lc A FA n1 iA iA fc rem acc =
        attLoop doc lc B FB n1 iB iB fc rem acc := by
  intro rem
  induction rem with
  | nil => intro acc; rfl
  | cons next rest ih =>
    intro acc
    cases next with
    | elem p =>
      rw [attLoop, attLoop]
      by_cases hstar : n1 = "*"
      · rw [if_pos hstar, if_pos hstar, ← hT]
        cases hE : FA.evaluateAgainst
            (some ((jsObjectValues (attrsOf doc p)).map Value.str)) (iA + 1) iA
            false 1 1 fc none with
        | error e => simp only [hE]
        | ok vs => simp only [hE]; exact ih _
      · rw [if_neg hstar, if_neg hstar]
        cases hatt : getAttributeByName doc p n1 with
        | some attValue =>
          simp only [hatt, ← hT]
          cases hE : FA.evaluateAgainst (some [Value.str attValue]) (iA + 1) iA
              false 1 1 fc none with
          | error e => simp only [hE]
          | ok vs => simp only [hE]; exact ih _
        | none => simp only [hatt]; exact ih _
    | str s => rfl
    | num n => rfl
    | bool b => rfl

theorem childLoop_bridge (doc : DomNode) (lc : String → String → Int)
    (A B : List String) (FA FB : Fns) (iA iB : Int) (rec₀ fc : Bool)
    (refs : List Value) (sS sP sA : Bool)
    (hG : ∀ c : Path, FA.getElementsByName [Value.elem c] iA iA rec₀ fc =
      FB.getElementsByName [Value.elem c] iB iB rec₀ fc) :
    ∀ (rem : List Path) (acc : List Value),
      childLoop doc lc A FA iA iA rec₀ fc refs sS sP sA rem acc =
        childLoop doc lc B FB iB iB rec₀ fc refs sS sP sA rem acc := by
  intro rem
  induction rem with
  | nil => intro acc; rfl
  | cons c rest ih =>
    intro acc
    rw [childLoop, childLoop, ← hG c]
    cases hE : FA.getElementsByName [Value.elem c] iA iA rec₀ fc with
    | error e => simp only [hE]
    | ok childrenByName => simp only [hE]; exact ih _

theorem elemLoop_bridge (doc : DomNode) (lc : String → String → Int)
    (A B : List String) (FA FB : Fns) (name : String) (iA iB : Int)
    (rec₀ fc : Bool)
    (hT : ∀ obj pos lst, FA.evaluateAgainst obj (iA + 1) iA false pos lst fc none =
      FB.evaluateAgainst obj (iB + 1) iB false pos lst fc none)
    (hG : ∀ c : Path, FA.getElementsByName [Value.elem c] iA iA rec₀ fc =
      FB.getElementsByName [Value.elem c] iB iB rec₀ fc) :
    ∀ (rem : List Value) (idx : Int) (acc : List Value),
      elemLoop doc lc A FA name iA iA rec₀ fc rem idx acc =
        elemLoop doc lc B FB name iB iB rec₀ fc rem idx acc := by
  intro rem
  induction rem with
  | nil => intro idx acc; rfl
  | cons next rest ih =>
    intro idx acc
    cases next with
    | elem p =>
      rw [elemLoop, elemLoop]
      cases hsub : subnodesFor doc name p with
      | error e => simp only [hsub]
      | ok subnodes =>
        simp only [hsub, ← hT]
        cases hR : FA.evaluateAgainst
            (some (insertAllVals [] (subnodes.map Value.elem))) (iA + 1) iA false
            (idx + 1) ((insertAllVals [] (subnodes.map Value.elem)).length : Int)
            fc none with
        | error e => simp only [hR]
        | ok refined =>
          simp only [hR]
          cases rec₀ with
          | false =>
            simp only [Bool.false_eq_true, if_false, ite_false]
            exact ih _ _
          | true =>
            simp only [if_true, ite_true]
            rw [childLoop_bridge doc lc A B FA FB iA iB true fc refined _ _ _ hG]
            cases hcl : childLoop doc lc B FB iB iB true fc refined (name = ".")
                (name = "..") (name = "*") (childTagPaths doc p)
                (if name = "." ∨ name = ".." ∨ name = "*" then
                  insertAllVals acc refined else acc) with
            | error e => simp only [hcl]
            | ok acc2 => simp only [hcl]; exact ih _ _
    | str s => rfl
    | num n => rfl
    | bool b => rfl

theorem gebn_tok_bridge (doc : DomNode) (lc : String → String → Int) :
    ∀ (f : Nat) (A B : List String) (iA iB : Int),
      tokGet A iA = tokGet B iB →
      ∀ (src : List Value) (rec₀ fc : Bool),
        (fns doc lc A f).getElementsByName src iA iA rec₀ fc =
          (fns doc lc B f).getElementsByName src iB iB rec₀ fc := by
  intro f
  induction f with
  | zero => intro A B iA iB _ src rec₀ fc; rfl
  | succ g ih =>
    intro A B iA iB h src rec₀ fc
    have hT : ∀ obj pos lst,
        (fns doc lc A g).evaluateAgainst obj (iA + 1) iA false pos lst fc none =
          (fns doc lc B g).evaluateAgainst obj (iB + 1) iB false pos lst fc none := by
      intro obj pos lst
      rw [fns_evalA_oob doc lc A g obj (iA + 1) iA false pos lst fc none
          (by intro hcon; omega),
        fns_evalA_oob doc lc B g obj (iB + 1) iB false pos lst fc none
          (by intro hcon; omega)]
    have hG : ∀ c : Path,
        (fns doc lc A g).getElementsByName [Value.elem c] iA iA rec₀ fc =
          (fns doc lc B g).getElementsByName [Value.elem c] iB iB rec₀ fc :=
      fun c => ih A B iA iB h [Value.elem c] rec₀ fc
    show stepGetElementsByName doc lc A (fns doc lc A g) src iA iA rec₀ fc =
      stepGetElementsByName doc lc B (fns doc lc B g) src iB iB rec₀ fc
    rw [stepGetElementsByName, stepGetElementsByName, h]
    by_cases hAtt : isAtt (jsTrim (tokGet B iB)) = true
    · simp only [hAtt, if_true, ite_true]
      exact attLoop_bridge doc lc A B _ _ _ iA iB fc (fun obj => hT obj 1 1) _ []
    · simp only [hAtt, Bool.not_eq_true, if_false, ite_false]
      exact elemLoop_bridge doc lc A B _ _ _ iA iB rec₀ fc hT hG src 0 []

/-- The `//x` side unfolds (by computation) to the recursive name step on
the single token `x`, followed by a trivial continuation. -/
theorem axis_lhs_unfold (doc : DomNode) (lc : String → String → Int)
    (p : Path) (f : Nat) :
    evaluateXPath doc lc (f + 2) p "//x" =
      match (fns doc lc ["/", "/", "x"] f).getElementsByName [Value.elem p]
          2 2 true false with
      | .error e => .error e
      | .ok value =>
        (fns doc lc ["/", "/", "x"] (f + 1)).evaluateAgainst (some value) 3 2
          false 1 0 false none := rfl

/-- The `.//x` side unfolds (by computation) to a `.` step whose refined
subnodes are the same recursive name step on `x`, re-inserted into a fresh
ordered set. -/
theorem axis_rhs_unfold (doc : DomNode) (lc : String → String → Int)
    (p : Path) (f : Nat) :
    evaluateXPath doc lc (f + 4) p ".//x" =
      match (match (fns doc lc [".", "/", "/", "x"] f).getElementsByName
            [Value.elem p] 3 3 true false with
          | Except.error e => Except.error e
          | Except.ok value =>
            (fns doc lc [".", "/", "/", "x"] (f + 1)).evaluateAgainst (some value)
              4 3 false 1 1 false none : Res) with
      | Except.error e => Except.error e
      | Except.ok refinedSubnodes => Except.ok (insertAllVals [] refinedSubnodes) := rfl

/-- C9: for every DOM tree and element `e`, `evaluate(e, "//x")` yields
the same value-list (same values, same order) as `evaluate(e, ".//x")`.
The fuel offsets (`f + 2` against `f + 4`) align the two call paths, which
consume different amounts of fuel before reaching the shared recursive
name step; for every aligned pair the results are equal. -/
theorem recursive_axis_composition (doc : DomNode) (lc : String → String → Int)
    (p : Path) (f : Nat) :
    evaluateXPath doc lc (f + 2) p "//x" = evaluateXPath doc lc (f + 4) p ".//x" := by
  rw [axis_lhs_unfold, axis_rhs_unfold]
  rw [show (fns doc lc ["/", "/", "x"] f).getElementsByName [Value.elem p]
        2 2 true false =
      (fns doc lc [".", "/", "/", "x"] f).getElementsByName [Value.elem p]
        3 3 true false
    from gebn_tok_bridge doc lc f _ _ 2 3 rfl [Value.elem p] true false]
  cases hR : (fns doc lc [".", "/", "/", "x"] f).getElementsByName [Value.elem p]
      3 3 true false with
  | error e => rfl
  | ok v =>
    have h1 : (fns doc lc ["/", "/", "x"] (f + 1)).evaluateAgainst (some v) 3 2
        false 1 0 false none = .ok v :=
      evaluateAgainst_out_of_range doc lc ["/", "/", "x"] f (some v) 3 2 false
        1 0 false none (by intro hcon; omega)
    have h2 : (fns doc lc [".", "/", "/", "x"] (f + 1)).evaluateAgainst (some v)
        4 3 false 1 1 false none = .ok v :=
      evaluateAgainst_out_of_range doc lc [".", "/", "/", "x"] f (some v) 4 3
        false 1 1 false none (by intro hcon; omega)
    simp only [h1, h2]
    have hnd : v.Nodup :=
      gebn_nodup doc lc [".", "/", "/", "x"] f [Value.elem p] 3 3 true false v
        (by decide) hR
    rw [insertAllVals_nil_of_nodup hnd]

end Xpather
